import Mathlib

/-!
Verification of the `cid` core: the `Project` snapshot/commit protocol
(`src/lib/project.rs`) and the `JabConfig` project registry
(`src/lib/config.rs`).

Paths are modelled as lists of components, byte sequences as lists of
naturals, and the filesystem and the revision-control backend as explicit
state (`World`) threaded through every operation.  The revision-control
backend itself (`GitRepo`, from `src/lib/git.rs`, which is not among the
sources) is modelled from the spec's RevisionStore capability description.
-/

set_option autoImplicit false

namespace Cid

/-- Byte sequences (`Vec<u8>` in the source) as lists of naturals. -/
abbrev Bytes := List Nat

/-- Filesystem paths (`PathBuf`) as lists of components; `join` appends. -/
abbrev FsPath := List String

/-- `Path::join` on path components. -/
def joinPath (p q : FsPath) : FsPath := p ++ q

/-- Lookup in an association list, first match wins (used for the
filesystem, the repository table and the registry `HashMap`). -/
def lookupA {κ α : Type} [DecidableEq κ] : List (κ × α) → κ → Option α
  | [], _ => none
  | (k, v) :: rest, key => if k = key then some v else lookupA rest key

/-- Insert-or-overwrite in an association list. -/
def insertA {κ α : Type} [DecidableEq κ] : List (κ × α) → κ → α → List (κ × α)
  | [], key, v => [(key, v)]
  | (k, w) :: rest, key, v =>
      if k = key then (key, v) :: rest else (k, w) :: insertA rest key v

/-- An in-memory filesystem: association list from absolute path to bytes. -/
abbrev Fs := List (FsPath × Bytes)

/-- Errors of the core, covering the error taxonomy of the spec:
I/O failures, revision-store failures and registry parse failures. -/
inductive Err where
  | ioError (path : FsPath)
  | repoNotFound (path : FsPath)
  | noRevisions
  | revisionNotFound (id : Nat)
  | fileNotTracked (path : FsPath)
  | parseError
deriving DecidableEq, Repr

/-- The registry error enum `ProjectConfigError` from `src/lib/config.rs`. -/
inductive ProjectConfigError where
  | projectConfigDoesNotExist (name : String)
deriving DecidableEq, Repr

/-- Modelled from the spec: one revision of the revision-control backend —
a human-readable message plus the snapshot of tracked file contents as of
this revision. -/
structure Revision where
  message : String
  snapshot : List (FsPath × Bytes)
deriving DecidableEq, Repr

/-- Modelled from the spec: a repository is its append-only revision
history, oldest first; a revision identifier is an index into this list. -/
structure Repo where
  revisions : List Revision
deriving DecidableEq, Repr

/-- The snapshot of tracked files at the head revision (empty when the
repository has no revisions yet). -/
def Repo.lastSnapshot (r : Repo) : List (FsPath × Bytes) :=
  match r.revisions.getLast? with
  | none => []
  | some rev => rev.snapshot

/-- The world state: the filesystem, the repositories keyed by their root
path, and the set of paths on which a filesystem write fails. -/
structure World where
  fs : Fs
  repos : List (FsPath × Repo)
  failingPaths : List FsPath
deriving DecidableEq, Repr

/-- Modelled from the spec: the repository handle of the revision-control
backend (`GitRepo` of `src/lib/git.rs`, absent from the sources) — an
opaque RevisionStore binding to a repository root path. -/
structure GitRepo where
  path : FsPath
deriving DecidableEq, Repr

/-- Modelled from the spec: `GitRepo::new` binds a handle to the repository
at the given path.  Per spec §9 it does not verify that a repository
actually exists there before binding (acknowledged validation gap). -/
def GitRepo.new (path : FsPath) : Except Err GitRepo := .ok ⟨path⟩

/-- Modelled from the spec: `GitRepo::upsert` opens the repository at the
path when one exists and otherwise initializes a fresh empty one. -/
def GitRepo.upsert (w : World) (path : FsPath) : World × GitRepo :=
  match lookupA w.repos path with
  | some _ => (w, ⟨path⟩)
  | none => ({ w with repos := insertA w.repos path ⟨[]⟩ }, ⟨path⟩)

/-- Modelled from the spec: `GitRepo::commit_file` commits a single named
file with a message, producing a new revision whose snapshot records the
file's bytes as currently on disk, carried over the previous snapshot. -/
def GitRepo.commit_file (r : GitRepo) (w : World) (file : FsPath)
    (message : String) : Except Err World :=
  match lookupA w.repos r.path with
  | none => .error (.repoNotFound r.path)
  | some repo =>
    match lookupA w.fs (joinPath r.path file) with
    | none => .error (.fileNotTracked file)
    | some content =>
      let rev : Revision := ⟨message, insertA repo.lastSnapshot file content⟩
      .ok { w with repos := insertA w.repos r.path ⟨repo.revisions ++ [rev]⟩ }

/-- Modelled from the spec: fetch a file's exact byte content as of a given
revision identifier; fails when the revision does not exist or the file was
not tracked at that revision. -/
def GitRepo.get_file_content_at_commit (r : GitRepo) (w : World)
    (file : FsPath) (commit_hash : Nat) : Except Err Bytes :=
  match lookupA w.repos r.path with
  | none => .error (.repoNotFound r.path)
  | some repo =>
    match repo.revisions[commit_hash]? with
    | none => .error (.revisionNotFound commit_hash)
    | some rev =>
      match lookupA rev.snapshot file with
      | none => .error (.fileNotTracked file)
      | some content => .ok content

/-- Modelled from the spec: report the identifier of the latest revision;
fails when the repository has zero revisions. -/
def GitRepo.last_commit_hash (r : GitRepo) (w : World) : Except Err Nat :=
  match lookupA w.repos r.path with
  | none => .error (.repoNotFound r.path)
  | some repo =>
    if repo.revisions.isEmpty then .error .noRevisions
    else .ok (repo.revisions.length - 1)

/-- Modelled from the spec: enumerate revisions, newest first. -/
def GitRepo.commit_iterator (r : GitRepo) (w : World) :
    Except Err (List Revision) :=
  match lookupA w.repos r.path with
  | none => .error (.repoNotFound r.path)
  | some repo => .ok repo.revisions.reverse

/-- `CreateInput` from `src/lib/project.rs`. -/
structure CreateInput where
  project_name : String
  project_dir : FsPath
  db_uri : String

/-- `OpenInput` from `src/lib/project.rs`. -/
structure OpenInput where
  project_dir : FsPath
  project_name : String
  db_uri : String

/-- The `Project` struct from `src/lib/project.rs`. -/
structure Project where
  name : String
  project_dir : FsPath
  repo_path : FsPath
  sql_path : FsPath
  db_uri : String
  repo : GitRepo
deriving DecidableEq, Repr

/-- `Project::default_sql_path`: the constant relative path `dump.sql`. -/
def Project.default_sql_path : FsPath := ["dump.sql"]

/-- `Project::open`: binds to the repository at `project_dir/project_name`.
The world is passed in because an existence check would consult it, but the
source performs none (the `TODO: Validate if project exists` comment). -/
def Project.openP (w : World) (input : OpenInput) : Except Err Project :=
  let _ := w
  let repo_path := joinPath input.project_dir [input.project_name]
  match GitRepo.new repo_path with
  | .error e => .error e
  | .ok repo =>
    .ok { db_uri := input.db_uri
          project_dir := input.project_dir
          name := input.project_name
          sql_path := Project.default_sql_path
          repo_path := repo_path
          repo := repo }

/-- `Project::create`: upserts the repository at `project_dir/project_name`
and then delegates to `open` with the same parameters. -/
def Project.create (w : World) (input : CreateInput) :
    Except Err (World × Project) :=
  let repo_path := joinPath input.project_dir [input.project_name]
  let res := GitRepo.upsert w repo_path
  match Project.openP res.1
      { project_dir := input.project_dir
        project_name := input.project_name
        db_uri := input.db_uri } with
  | .error e => .error e
  | .ok p => .ok (res.1, p)

/-- `Project::absolute_sql_path`: `repo_path.join(sql_path)`. -/
def Project.absolute_sql_path (p : Project) : FsPath :=
  joinPath p.repo_path p.sql_path

/-- `Project::sync_dump`: writes the dump bytes to the tracked file's
absolute path (full overwrite); fails with an I/O error exactly on the
world's failing paths, leaving the filesystem unchanged. -/
def Project.sync_dump (w : World) (p : Project) (dump : Bytes) :
    Except Err World :=
  if p.absolute_sql_path ∈ w.failingPaths then
    .error (.ioError p.absolute_sql_path)
  else
    .ok { w with fs := insertA w.fs p.absolute_sql_path dump }

/-- `Project::commit_dump`: re-opens the handle, writes the dump via
`sync_dump`, then records a revision over the tracked file.  The world is
returned alongside the result so that the state at each failure point is
observable. -/
def Project.commit_dump (w : World) (p : Project) (message : String)
    (dump : Bytes) : World × Except Err Unit :=
  match GitRepo.new p.repo_path with
  | .error e => (w, .error e)
  | .ok repo =>
    match Project.sync_dump w p dump with
    | .error e => (w, .error e)
    | .ok w1 =>
      match GitRepo.commit_file repo w1 p.sql_path message with
      | .error e => (w1, .error e)
      | .ok w2 => (w2, .ok ())

/-- `Project::get_dump_at_commit`: fetch the tracked file's content as of
the named revision. -/
def Project.get_dump_at_commit (w : World) (p : Project)
    (commit_hash : Nat) : Except Err Bytes :=
  p.repo.get_file_content_at_commit w p.sql_path commit_hash

/-- `Project::get_latest_dump`: resolve the latest revision identifier and
delegate to `get_dump_at_commit`. -/
def Project.get_latest_dump (w : World) (p : Project) : Except Err Bytes :=
  match p.repo.last_commit_hash w with
  | .error e => .error e
  | .ok h => Project.get_dump_at_commit w p h

/-- The `ProjectConfig` struct from `src/lib/config.rs`. -/
structure ProjectConfig where
  name : String
  db_uri : String
deriving DecidableEq, Repr

/-- The `JabConfig` registry from `src/lib/config.rs`; the `HashMap` is
modelled as an association list whose well-formed states have no duplicate
keys. -/
structure JabConfig where
  projects : List (String × ProjectConfig)
deriving DecidableEq, Repr

/-- `JabConfig::register_project_config`: insert-or-overwrite keyed by the
config's own name. -/
def JabConfig.register_project_config (c : JabConfig)
    (project_config : ProjectConfig) : JabConfig :=
  { c with projects := insertA c.projects project_config.name project_config }

/-- `JabConfig::project_config`: return the stored config, or fail with
`ProjectConfigDoesNotExist` carrying the requested name. -/
def JabConfig.project_config (c : JabConfig) (name : String) :
    Except ProjectConfigError ProjectConfig :=
  match lookupA c.projects name with
  | none => .error (.projectConfigDoesNotExist name)
  | some pc => .ok pc

/-- JSON values, as far as the registry's shape needs them.  The external
serde_json crate's string rendering and parsing are modelled as the
identity on these values. -/
inductive Json where
  | str (s : String)
  | obj (fields : List (String × Json))

/-- Serialization of a `ProjectConfig` (serde derive: two string fields). -/
def ProjectConfig.toJson (pc : ProjectConfig) : Json :=
  .obj [("name", .str pc.name), ("db_uri", .str pc.db_uri)]

/-- Deserialization of a `ProjectConfig`: both fields must be present as
strings. -/
def ProjectConfig.fromJson (j : Json) : Except Err ProjectConfig :=
  match j with
  | .obj fields =>
    match lookupA fields "name", lookupA fields "db_uri" with
    | some (.str n), some (.str d) => .ok ⟨n, d⟩
    | _, _ => .error .parseError
  | _ => .error .parseError

/-- Serialization of the registry: a JSON object mapping each project name
to its serialized config (the single `projects` field of the file). -/
def JabConfig.toJson (c : JabConfig) : Json :=
  .obj (c.projects.map fun e => (e.1, ProjectConfig.toJson e.2))

/-- Deserialization of the registry from its JSON object. -/
def JabConfig.fromJson (j : Json) : Except Err JabConfig :=
  match j with
  | .obj fields =>
    match fields.mapM
        (fun e => (ProjectConfig.fromJson e.2).map fun pc => (e.1, pc)) with
    | .error e => .error e
    | .ok l => .ok ⟨l⟩
  | _ => .error .parseError

/-- `get_jab_dir`: the home directory joined with `.jab`. -/
def get_jab_dir (home : FsPath) : FsPath := joinPath home [".jab"]

/-- `JabConfig::get_path`: the jab directory joined with `config`. -/
def JabConfig.get_path (home : FsPath) : FsPath :=
  joinPath (get_jab_dir home) ["config"]

/-- The registry file store: JSON values keyed by path (the serialized
text is modelled at the level of the JSON value it denotes). -/
abbrev JsonFs := List (FsPath × Json)

/-- `JabConfig::persist`: serialize the full mapping and write it to the
fixed config path. -/
def JabConfig.persist (jfs : JsonFs) (home : FsPath) (c : JabConfig) :
    JsonFs :=
  insertA jfs (JabConfig.get_path home) c.toJson

/-- `JabConfig::read`: read the config path and deserialize. -/
def JabConfig.read (jfs : JsonFs) (home : FsPath) :
    Except Err JabConfig :=
  match lookupA jfs (JabConfig.get_path home) with
  | none => .error (.ioError (JabConfig.get_path home))
  | some j => JabConfig.fromJson j

/-- `JabConfig::empty_config_str`: canonical serialization of the empty
registry. -/
def JabConfig.empty_config_str : Json := JabConfig.toJson ⟨[]⟩

/-! ### Concrete fixtures used to instantiate the theorems -/

/-- A concrete project bound to the repository at `d/p`, as produced by
`Project::open` on `project_dir = d`, `project_name = p`. -/
def exampleProject : Project :=
  { name := "p"
    project_dir := ["d"]
    repo_path := ["d", "p"]
    sql_path := ["dump.sql"]
    db_uri := "postgres"
    repo := ⟨["d", "p"]⟩ }

/-- A concrete world holding one empty repository at `d/p`. -/
def exampleWorld : World := ⟨[], [(["d", "p"], ⟨[]⟩)], []⟩

/-- A concrete world in which writing `d/p/dump.sql` fails. -/
def exampleFailWorld : World :=
  ⟨[], [(["d", "p"], ⟨[]⟩)], [["d", "p", "dump.sql"]]⟩

/-- A concrete registry with a single entry. -/
def exampleConfig : JabConfig := ⟨[("shop", ⟨"shop", "postgres"⟩)]⟩

/-! ### Association-list lemmas -/

@[simp]
theorem lookupA_insertA_self {κ α : Type} [DecidableEq κ]
    (l : List (κ × α)) (k : κ) (v : α) :
    lookupA (insertA l k v) k = some v := by
  induction l with
  | nil => simp [insertA, lookupA]
  | cons hd tl ih =>
    by_cases hk : hd.1 = k
    · simp [insertA, hk, lookupA]
    · simp [insertA, hk, lookupA, ih]

theorem lookupA_insertA_ne {κ α : Type} [DecidableEq κ]
    (l : List (κ × α)) (k q : κ) (v : α) (hq : q ≠ k) :
    lookupA (insertA l k v) q = lookupA l q := by
  induction l with
  | nil => simp [insertA, lookupA, Ne.symm hq]
  | cons hd tl ih =>
    by_cases hk : hd.1 = k
    · simp [insertA, hk, lookupA, Ne.symm hq]
    · simp [insertA, hk, lookupA, ih]

theorem mem_keys_insertA {κ α : Type} [DecidableEq κ]
    (l : List (κ × α)) (k x : κ) (v : α) :
    x ∈ (insertA l k v).map Prod.fst ↔ x ∈ l.map Prod.fst ∨ x = k := by
  induction l with
  | nil => simp [insertA]
  | cons hd tl ih =>
    by_cases hk : hd.1 = k
    · subst hk
      simp [insertA]
      tauto
    · simp [insertA, hk, ih]
      tauto

theorem keys_nodup_insertA {κ α : Type} [DecidableEq κ]
    (l : List (κ × α)) (k : κ) (v : α)
    (h : (l.map Prod.fst).Nodup) :
    ((insertA l k v).map Prod.fst).Nodup := by
  induction l with
  | nil => simp [insertA]
  | cons hd tl ih =>
    obtain ⟨a, b⟩ := hd
    simp only [List.map_cons, List.nodup_cons] at h
    by_cases hk : a = k
    · subst hk
      simpa [insertA] using h
    · simp only [insertA, if_neg hk, List.map_cons, List.nodup_cons]
      constructor
      · rw [mem_keys_insertA]
        push_neg
        exact ⟨h.1, hk⟩
      · exact ih h.2

theorem length_insertA_of_mem {κ α : Type} [DecidableEq κ]
    (l : List (κ × α)) (k : κ) (v : α)
    (h : (lookupA l k).isSome) :
    (insertA l k v).length = l.length := by
  induction l with
  | nil => simp [lookupA] at h
  | cons hd tl ih =>
    by_cases hk : hd.1 = k
    · simp [insertA, hk]
    · simp [lookupA, hk] at h
      simp [insertA, hk, ih h]

/-! ### Characterizing a successful `commit_dump` -/

/-- A successful `commit_dump` means: the write did not fail, a repository
existed at `repo_path`, and the resulting world has the dump on disk and one
new revision appended whose snapshot records the dump under `sql_path`. -/
theorem commit_dump_ok_elim (w : World) (p : Project) (m : String)
    (d : Bytes) (w2 : World)
    (h : Project.commit_dump w p m d = (w2, .ok ())) :
    ∃ repo0, p.absolute_sql_path ∉ w.failingPaths ∧
      lookupA w.repos p.repo_path = some repo0 ∧
      w2 = { w with
        fs := insertA w.fs p.absolute_sql_path d
        repos := insertA w.repos p.repo_path
          ⟨repo0.revisions ++
            [⟨m, insertA repo0.lastSnapshot p.sql_path d⟩]⟩ } := by
  unfold Project.commit_dump GitRepo.new at h
  by_cases hf : p.absolute_sql_path ∈ w.failingPaths
  · simp [Project.sync_dump, hf] at h
  · simp only [Project.sync_dump, if_neg hf] at h
    cases hrep : lookupA w.repos p.repo_path with
    | none => simp [GitRepo.commit_file, hrep] at h
    | some repo0 =>
      refine ⟨repo0, hf, rfl, ?_⟩
      simp only [GitRepo.commit_file, hrep, Project.absolute_sql_path,
        lookupA_insertA_self] at h
      simp only [Prod.mk.injEq] at h
      exact h.1.symm

/-- After any successful `commit_dump`, the latest dump is the committed
one (shared helper for the round-trip claims). -/
theorem get_latest_dump_after_ok (w : World) (p : Project)
    (m : String) (d : Bytes) (w1 : World)
    (hrepo : p.repo.path = p.repo_path)
    (h : Project.commit_dump w p m d = (w1, .ok ())) :
    Project.get_latest_dump w1 p = .ok d := by
  obtain ⟨repo0, hf, hrep, hw⟩ := commit_dump_ok_elim w p m d w1 h
  subst hw
  simp [Project.get_latest_dump, GitRepo.last_commit_hash, hrepo,
    Project.get_dump_at_commit, GitRepo.get_file_content_at_commit,
    List.length_append, List.getElem?_concat_length]

/-! ### Claim theorems -/

/-- C1: for every project and every byte sequence A, after a successful
`commit_dump(msg, A)`, `get_latest_dump()` succeeds and returns exactly the
bytes A. -/
theorem commit_dump_then_get_latest (w : World) (p : Project)
    (msg : String) (A : Bytes) (w1 : World)
    (hrepo : p.repo.path = p.repo_path)
    (h : Project.commit_dump w p msg A = (w1, .ok ())) :
    Project.get_latest_dump w1 p = .ok A :=
  get_latest_dump_after_ok w p msg A w1 hrepo h

/-- Witness for C1 at a concrete project and dump. -/
theorem commit_dump_then_get_latest_witness :
    Project.get_latest_dump
      (Project.commit_dump exampleWorld exampleProject "init" [1, 2]).1
      exampleProject = .ok [1, 2] :=
  commit_dump_then_get_latest exampleWorld exampleProject "init" [1, 2]
    (Project.commit_dump exampleWorld exampleProject "init" [1, 2]).1
    rfl rfl

/-- C4: on a project whose repository contains zero revisions,
`get_latest_dump()` returns the no-revisions error (and hence never an
empty byte sequence or any other default). -/
theorem get_latest_dump_zero_revisions (w : World) (p : Project)
    (h : lookupA w.repos p.repo.path = some ⟨[]⟩) :
    Project.get_latest_dump w p = .error .noRevisions := by
  simp [Project.get_latest_dump, GitRepo.last_commit_hash, h]

/-- Witness for C4 at a concrete project with an empty repository. -/
theorem get_latest_dump_zero_revisions_witness :
    Project.get_latest_dump exampleWorld exampleProject =
      .error .noRevisions :=
  get_latest_dump_zero_revisions exampleWorld exampleProject rfl

/-- C2: after `commit_dump(m1, A)` then `commit_dump(m2, B)`,
`get_latest_dump()` returns B, and `get_dump_at_commit` applied to the
revision id of the first commit returns A — earlier snapshots remain
retrievable. -/
theorem commit_twice_history (w : World) (p : Project)
    (m1 m2 : String) (A B : Bytes) (w1 w2 : World) (r1 : Nat)
    (hrepo : p.repo.path = p.repo_path)
    (h1 : Project.commit_dump w p m1 A = (w1, .ok ()))
    (hlast : GitRepo.last_commit_hash p.repo w1 = .ok r1)
    (h2 : Project.commit_dump w1 p m2 B = (w2, .ok ())) :
    Project.get_latest_dump w2 p = .ok B ∧
    Project.get_dump_at_commit w2 p r1 = .ok A := by
  refine ⟨get_latest_dump_after_ok w1 p m2 B w2 hrepo h2, ?_⟩
  obtain ⟨repo0, hf1, hrep1, hw1⟩ := commit_dump_ok_elim w p m1 A w1 h1
  obtain ⟨repo1, hf2, hrep2, hw2⟩ := commit_dump_ok_elim w1 p m2 B w2 h2
  subst hw2
  subst hw1
  rw [lookupA_insertA_self] at hrep2
  injection hrep2 with hrep2
  subst hrep2
  simp only [GitRepo.last_commit_hash, hrepo, lookupA_insertA_self] at hlast
  simp only [List.isEmpty_eq_true, List.append_eq_nil, List.cons_ne_self,
    and_false, if_false, List.length_append, List.length_singleton,
    Nat.add_sub_cancel, Except.ok.injEq] at hlast
  subst hlast
  simp only [Project.get_dump_at_commit, GitRepo.get_file_content_at_commit,
    hrepo, lookupA_insertA_self]
  rw [List.getElem?_append_left (by simp), List.getElem?_concat_length]
  simp

/-- Witness for C2: two concrete commits, then both retrievals. -/
theorem commit_twice_history_witness :
    Project.get_latest_dump
      (Project.commit_dump
        (Project.commit_dump exampleWorld exampleProject "c1" [1]).1
        exampleProject "c2" [2]).1 exampleProject = .ok [2] ∧
    Project.get_dump_at_commit
      (Project.commit_dump
        (Project.commit_dump exampleWorld exampleProject "c1" [1]).1
        exampleProject "c2" [2]).1 exampleProject 0 = .ok [1] :=
  commit_twice_history exampleWorld exampleProject "c1" "c2" [1] [2]
    (Project.commit_dump exampleWorld exampleProject "c1" [1]).1
    (Project.commit_dump
      (Project.commit_dump exampleWorld exampleProject "c1" [1]).1
      exampleProject "c2" [2]).1
    0 rfl rfl rfl rfl

/-- C3: the dump write happens before any revision is recorded — on a
filesystem write failure `commit_dump` returns the I/O error with the world
(and hence the revision history) unchanged, and whenever `commit_dump`
succeeds the resulting filesystem holds the dump at the tracked path. -/
theorem commit_dump_write_before_revision (w : World) (p : Project)
    (msg : String) (d : Bytes) :
    (p.absolute_sql_path ∈ w.failingPaths →
      Project.commit_dump w p msg d =
        (w, .error (.ioError p.absolute_sql_path))) ∧
    (∀ w2, Project.commit_dump w p msg d = (w2, .ok ()) →
      lookupA w2.fs p.absolute_sql_path = some d) := by
  constructor
  · intro hf
    simp [Project.commit_dump, GitRepo.new, Project.sync_dump, hf]
  · intro w2 h
    obtain ⟨repo0, hf, hrep, hw⟩ := commit_dump_ok_elim w p msg d w2 h
    subst hw
    simp

/-- Witness for C3: a concrete failing write aborts with no revision, and a
concrete successful commit leaves the dump on disk. -/
theorem commit_dump_write_before_revision_witness :
    Project.commit_dump exampleFailWorld exampleProject "m" [7] =
      (exampleFailWorld,
        .error (.ioError exampleProject.absolute_sql_path)) ∧
    lookupA (Project.commit_dump exampleWorld exampleProject "m" [7]).1.fs
      exampleProject.absolute_sql_path = some [7] :=
  ⟨(commit_dump_write_before_revision exampleFailWorld exampleProject
      "m" [7]).1 (by decide),
   (commit_dump_write_before_revision exampleWorld exampleProject
      "m" [7]).2
     (Project.commit_dump exampleWorld exampleProject "m" [7]).1 rfl⟩

/-- C5 (code bug in the source, marked by its own `TODO: Validate if
project exists` comment): in a world with no repository at `d/p`,
`Project::open` still returns Ok with a Project bound to the absent
repository path instead of an error. -/
theorem openP_binds_absent_repository :
    lookupA (World.mk [] [] []).repos (joinPath ["d"] ["p"]) = none ∧
    Project.openP (World.mk [] [] []) ⟨["d"], "p", "u"⟩ =
      .ok { name := "p"
            project_dir := ["d"]
            repo_path := ["d", "p"]
            sql_path := ["dump.sql"]
            db_uri := "u"
            repo := ⟨["d", "p"]⟩ } :=
  ⟨rfl, rfl⟩

/-- C6: `project_config` on an unregistered name fails with
`ProjectConfigDoesNotExist` carrying that name (never a default), and on a
registered name returns the stored config unchanged. -/
theorem project_config_lookup_spec (c : JabConfig) (name : String) :
    (lookupA c.projects name = none →
      JabConfig.project_config c name =
        .error (.projectConfigDoesNotExist name)) ∧
    (∀ pc, lookupA c.projects name = some pc →
      JabConfig.project_config c name = .ok pc) := by
  constructor
  · intro h
    simp [JabConfig.project_config, h]
  · intro pc h
    simp [JabConfig.project_config, h]

/-- Witness for C6: a concrete missing name and a concrete present name. -/
theorem project_config_lookup_spec_witness :
    JabConfig.project_config exampleConfig "nope" =
      .error (.projectConfigDoesNotExist "nope") ∧
    JabConfig.project_config exampleConfig "shop" =
      .ok ⟨"shop", "postgres"⟩ :=
  ⟨(project_config_lookup_spec exampleConfig "nope").1 rfl,
   (project_config_lookup_spec exampleConfig "shop").2
     ⟨"shop", "postgres"⟩ rfl⟩

/-- C7: registering overwrites by name — the re-registered name maps to the
new config, any sequence of `register_project_config` calls preserves
key-uniqueness of the mapping, and re-registering a present name leaves the
number of entries unchanged. -/
theorem register_overwrite_unique (c : JabConfig) (pc : ProjectConfig)
    (pcs : List ProjectConfig)
    (h : (c.projects.map Prod.fst).Nodup) :
    lookupA (JabConfig.register_project_config c pc).projects pc.name =
      some pc ∧
    (((pcs.foldl JabConfig.register_project_config c).projects.map
        Prod.fst).Nodup) ∧
    ((lookupA c.projects pc.name).isSome →
      (JabConfig.register_project_config c pc).projects.length =
        c.projects.length) := by
  refine ⟨lookupA_insertA_self c.projects pc.name pc, ?_, ?_⟩
  · induction pcs generalizing c with
    | nil => exact h
    | cons q qs ih => exact ih _ (keys_nodup_insertA _ _ _ h)
  · intro hs
    exact length_insertA_of_mem c.projects pc.name pc hs

/-- Witness for C7 at a concrete registry, re-registration and sequence. -/
theorem register_overwrite_unique_witness :
    lookupA
      (JabConfig.register_project_config exampleConfig
        ⟨"shop", "mysql"⟩).projects "shop" = some ⟨"shop", "mysql"⟩ ∧
    ((([⟨"other", "u2"⟩] : List ProjectConfig).foldl
        JabConfig.register_project_config exampleConfig).projects.map
        Prod.fst).Nodup ∧
    (JabConfig.register_project_config exampleConfig
        ⟨"shop", "mysql"⟩).projects.length =
      exampleConfig.projects.length :=
  have hmain := register_overwrite_unique exampleConfig ⟨"shop", "mysql"⟩
    [⟨"other", "u2"⟩] (by decide)
  ⟨hmain.1, hmain.2.1, hmain.2.2 (by decide)⟩

/-- A single `ProjectConfig` deserializes back from its serialization. -/
theorem fromJson_toJson_config (pc : ProjectConfig) :
    ProjectConfig.fromJson (ProjectConfig.toJson pc) = .ok pc := rfl

/-- Decoding the encoded entry list of the registry recovers it. -/
theorem mapM_decode_entries (l : List (String × ProjectConfig)) :
    (l.map fun e => (e.1, ProjectConfig.toJson e.2)).mapM
      (fun e => (ProjectConfig.fromJson e.2).map fun pc => (e.1, pc)) =
      .ok l := by
  induction l with
  | nil => rfl
  | cons hd tl ih =>
    rw [List.map_cons, List.mapM_cons, ih]
    rfl

/-- The full registry deserializes back from its serialization. -/
theorem fromJson_toJson_registry (c : JabConfig) :
    JabConfig.fromJson (JabConfig.toJson c) = .ok c := by
  simp only [JabConfig.toJson, JabConfig.fromJson, mapM_decode_entries]

/-- C8: for every registry value, persisting it and then reading it back
from the fixed config path succeeds and reproduces the same name-to-config
mapping. -/
theorem persist_read_roundtrip (jfs : JsonFs) (home : FsPath)
    (c : JabConfig) :
    JabConfig.read (JabConfig.persist jfs home c) home = .ok c := by
  simp [JabConfig.read, JabConfig.persist, fromJson_toJson_registry]

/-- C9: `create` twice with identical arguments succeeds both times, yields
the same Project bound to the single repository at
`project_dir/project_name`, and the second call changes no state. -/
theorem create_idempotent (w : World) (input : CreateInput)
    (w1 : World) (p1 : Project)
    (h : Project.create w input = .ok (w1, p1)) :
    Project.create w1 input = .ok (w1, p1) ∧
    p1.repo_path = joinPath input.project_dir [input.project_name] ∧
    (lookupA w1.repos
      (joinPath input.project_dir [input.project_name])).isSome := by
  unfold Project.create GitRepo.upsert Project.openP GitRepo.new at h ⊢
  cases hrep : lookupA w.repos
      (joinPath input.project_dir [input.project_name]) with
  | some r =>
    simp only [hrep, Except.ok.injEq, Prod.mk.injEq] at h
    obtain ⟨hw1, hp1⟩ := h
    subst hw1
    subst hp1
    simp [hrep]
  | none =>
    simp only [hrep, Except.ok.injEq, Prod.mk.injEq] at h
    obtain ⟨hw1, hp1⟩ := h
    subst hw1
    subst hp1
    simp [lookupA_insertA_self]

/-- Witness for C9: two concrete `create` calls on a fresh world. -/
theorem create_idempotent_witness :
    Project.create exampleWorld ⟨"p", ["d"], "postgres"⟩ =
      .ok (exampleWorld, exampleProject) ∧
    exampleProject.repo_path = ["d", "p"] ∧
    (lookupA exampleWorld.repos ["d", "p"]).isSome :=
  create_idempotent (World.mk [] [] []) ⟨"p", ["d"], "postgres"⟩
    exampleWorld exampleProject rfl

/-- A successful single-file commit only appends to the repository at the
handle's path and reads the file from disk (shared elimination lemma). -/
theorem commit_file_ok_elim (r : GitRepo) (w : World) (f : FsPath)
    (m : String) (w2 : World)
    (h : GitRepo.commit_file r w f m = .ok w2) :
    ∃ repo0 content, lookupA w.repos r.path = some repo0 ∧
      lookupA w.fs (joinPath r.path f) = some content ∧
      w2 = { w with
        repos := insertA w.repos r.path
          ⟨repo0.revisions ++
            [⟨m, insertA repo0.lastSnapshot f content⟩]⟩ } := by
  unfold GitRepo.commit_file at h
  cases hrep : lookupA w.repos r.path with
  | none => simp [hrep] at h
  | some repo0 =>
    cases hfile : lookupA w.fs (joinPath r.path f) with
    | none => simp [hrep, hfile] at h
    | some content =>
      simp only [hrep, hfile, Except.ok.injEq] at h
      exact ⟨repo0, content, rfl, rfl, h.symm⟩

/-- `commit_dump` leaves every filesystem path other than the tracked
file's absolute path untouched. -/
theorem commit_dump_fs_local (w : World) (p : Project) (m : String)
    (d : Bytes) (q : FsPath) (hq : q ≠ p.absolute_sql_path) :
    lookupA (Project.commit_dump w p m d).1.fs q = lookupA w.fs q := by
  unfold Project.commit_dump GitRepo.new
  by_cases hf : p.absolute_sql_path ∈ w.failingPaths
  · simp [Project.sync_dump, hf]
  · simp only [Project.sync_dump, if_neg hf]
    cases hcf : GitRepo.commit_file ⟨p.repo_path⟩
        { w with fs := insertA w.fs p.absolute_sql_path d } p.sql_path m with
    | error e => simp [hcf, lookupA_insertA_ne _ _ _ _ hq]
    | ok wc =>
      obtain ⟨repo0, content, hrep, hfile, hwc⟩ :=
        commit_file_ok_elim _ _ _ _ _ hcf
      subst hwc
      simp [hcf, lookupA_insertA_ne _ _ _ _ hq]

/-- `commit_dump` leaves every repository other than the one at the
project's `repo_path` untouched. -/
theorem commit_dump_repos_local (w : World) (p : Project) (m : String)
    (d : Bytes) (q : FsPath) (hq : q ≠ p.repo_path) :
    lookupA (Project.commit_dump w p m d).1.repos q =
      lookupA w.repos q := by
  unfold Project.commit_dump GitRepo.new
  by_cases hf : p.absolute_sql_path ∈ w.failingPaths
  · simp [Project.sync_dump, hf]
  · simp only [Project.sync_dump, if_neg hf]
    cases hcf : GitRepo.commit_file ⟨p.repo_path⟩
        { w with fs := insertA w.fs p.absolute_sql_path d } p.sql_path m with
    | error e => simp [hcf]
    | ok wc =>
      obtain ⟨repo0, content, hrep, hfile, hwc⟩ :=
        commit_file_ok_elim _ _ _ _ _ hcf
      subst hwc
      simp [hcf, lookupA_insertA_ne _ _ _ _ hq]

/-- C10: a Project produced by `open` has the constant tracked file
`dump.sql`, its revision handle bound to exactly
`project_dir/project_name`, its absolute tracked path equal to
`project_dir/project_name/dump.sql`, its operations touch no other
filesystem path and no other repository, and `create` yields the same
binding. -/
theorem project_single_file_binding (w : World) (input : OpenInput)
    (p : Project) (h : Project.openP w input = .ok p) :
    (p.sql_path = ["dump.sql"] ∧
     p.repo_path = joinPath input.project_dir [input.project_name] ∧
     p.repo.path = p.repo_path ∧
     p.absolute_sql_path =
       joinPath input.project_dir [input.project_name, "dump.sql"]) ∧
    (∀ w2 m d q, q ≠ p.absolute_sql_path →
      lookupA (Project.commit_dump w2 p m d).1.fs q = lookupA w2.fs q) ∧
    (∀ w2 m d q, q ≠ p.repo_path →
      lookupA (Project.commit_dump w2 p m d).1.repos q =
        lookupA w2.repos q) ∧
    (∀ wc inc w1 p1, Project.create wc inc = .ok (w1, p1) →
      p1.sql_path = ["dump.sql"] ∧
      p1.repo_path = joinPath inc.project_dir [inc.project_name] ∧
      p1.repo.path = p1.repo_path) := by
  unfold Project.openP GitRepo.new at h
  simp only [Except.ok.injEq] at h
  subst h
  refine ⟨⟨rfl, rfl, rfl,
    by simp [Project.absolute_sql_path, joinPath, Project.default_sql_path]⟩,
    ?_, ?_, ?_⟩
  · intro w2 m d q hq
    exact commit_dump_fs_local w2 _ m d q hq
  · intro w2 m d q hq
    exact commit_dump_repos_local w2 _ m d q hq
  · intro wc inc w1 p1 hc
    unfold Project.create GitRepo.upsert Project.openP GitRepo.new at hc
    cases hrep : lookupA wc.repos
        (joinPath inc.project_dir [inc.project_name]) with
    | some r =>
      simp only [hrep, Except.ok.injEq, Prod.mk.injEq] at hc
      obtain ⟨hw1, hp1⟩ := hc
      subst hp1
      exact ⟨rfl, rfl, rfl⟩
    | none =>
      simp only [hrep, Except.ok.injEq, Prod.mk.injEq] at hc
      obtain ⟨hw1, hp1⟩ := hc
      subst hp1
      exact ⟨rfl, rfl, rfl⟩

/-- Witness for C10 at a concrete open call, path and commit. -/
theorem project_single_file_binding_witness :
    exampleProject.absolute_sql_path = ["d", "p", "dump.sql"] ∧
    lookupA (Project.commit_dump exampleWorld exampleProject "m" [7]).1.fs
      ["q"] = lookupA exampleWorld.fs ["q"] ∧
    lookupA
      (Project.commit_dump exampleWorld exampleProject "m" [7]).1.repos
      ["q"] = lookupA exampleWorld.repos ["q"] :=
  have hpb := project_single_file_binding exampleWorld
    ⟨["d"], "p", "postgres"⟩ exampleProject rfl
  ⟨hpb.1.2.2.2,
   hpb.2.1 exampleWorld "m" [7] ["q"] (by decide),
   hpb.2.2.1 exampleWorld "m" [7] ["q"] (by decide)⟩

end Cid
